import Mathlib

/-! CinemaAbyss strangler-fig proxy: routing core

A shallow embedding of `src/microservices/proxy/main.go`:

* `bucket100`     (main.go:136-140) together with the SHA-256 function it calls,
* `clampPercent`  (main.go:158-170) together with `strings.TrimSpace` and `strconv.Atoi`,
* `chooseMovies`  (main.go:83-105),
* the `http.ServeMux` table built in `main` (main.go:41-71), with the routing of
  `net/http` as of Go 1.22: patterns are matched against the escaped path, segment by
  segment,
* the error handler installed by `newProxy` (main.go:107-123).

Go strings are embedded as Lean `String`s (sequences of Unicode code points, read as
their UTF-8 bytes where the code works on bytes).  Go `int` is 64 bits wide and is
embedded as `Int`; the only place where the width matters is the range check of
`strconv.Atoi`.  The draw `rand.Intn(100)` is an explicit argument of the functions
that consume it.
-/

namespace CinemaAbyss

/-! ## SHA-256 (FIPS 180-4), as computed by `crypto/sha256.Sum256` -/

/-- The modulus of 32-bit word arithmetic. -/
def word32 : Nat := 4294967296

/-- Addition of 32-bit words. -/
def add32 (a b : Nat) : Nat := (a + b) % word32

/-- Rotate a 32-bit word right by `n` bits (`0 < n < 32`). -/
def rotr32 (x n : Nat) : Nat := ((x >>> n) ||| (x <<< (32 - n))) % word32

/-- Bitwise complement of a 32-bit word. -/
def not32 (x : Nat) : Nat := (word32 - 1) ^^^ x

/-- The choice function `Ch`. -/
def ch32 (x y z : Nat) : Nat := (x &&& y) ^^^ (not32 x &&& z)

/-- The majority function `Maj`. -/
def maj32 (x y z : Nat) : Nat := (x &&& y) ^^^ (x &&& z) ^^^ (y &&& z)

/-- The function `Σ0`. -/
def bigSigma0 (x : Nat) : Nat := rotr32 x 2 ^^^ rotr32 x 13 ^^^ rotr32 x 22

/-- The function `Σ1`. -/
def bigSigma1 (x : Nat) : Nat := rotr32 x 6 ^^^ rotr32 x 11 ^^^ rotr32 x 25

/-- The function `σ0`. -/
def smallSigma0 (x : Nat) : Nat := rotr32 x 7 ^^^ rotr32 x 18 ^^^ (x >>> 3)

/-- The function `σ1`. -/
def smallSigma1 (x : Nat) : Nat := rotr32 x 17 ^^^ rotr32 x 19 ^^^ (x >>> 10)

/-- The 64 round constants. -/
def roundConstants : List Nat :=
  [0x428a2f98, 0x71374491, 0xb5c0fbcf, 0xe9b5dba5, 0x3956c25b, 0x59f111f1, 0x923f82a4, 0xab1c5ed5,
   0xd807aa98, 0x12835b01, 0x243185be, 0x550c7dc3, 0x72be5d74, 0x80deb1fe, 0x9bdc06a7, 0xc19bf174,
   0xe49b69c1, 0xefbe4786, 0x0fc19dc6, 0x240ca1cc, 0x2de92c6f, 0x4a7484aa, 0x5cb0a9dc, 0x76f988da,
   0x983e5152, 0xa831c66d, 0xb00327c8, 0xbf597fc7, 0xc6e00bf3, 0xd5a79147, 0x06ca6351, 0x14292967,
   0x27b70a85, 0x2e1b2138, 0x4d2c6dfc, 0x53380d13, 0x650a7354, 0x766a0abb, 0x81c2c92e, 0x92722c85,
   0xa2bfe8a1, 0xa81a664b, 0xc24b8b70, 0xc76c51a3, 0xd192e819, 0xd6990624, 0xf40e3585, 0x106aa070,
   0x19a4c116, 0x1e376c08, 0x2748774c, 0x34b0bcb5, 0x391c0cb3, 0x4ed8aa4a, 0x5b9cca4f, 0x682e6ff3,
   0x748f82ee, 0x78a5636f, 0x84c87814, 0x8cc70208, 0x90befffa, 0xa4506ceb, 0xbef9a3f7, 0xc67178f2]

/-- The eight working variables `a..h`, also used for the chaining value. -/
structure HashState where
  a : Nat
  b : Nat
  c : Nat
  d : Nat
  e : Nat
  f : Nat
  g : Nat
  h : Nat
deriving DecidableEq, Repr

/-- The initial hash value. -/
def initialHash : HashState :=
  ⟨0x6a09e667, 0xbb67ae85, 0x3c6ef372, 0xa54ff53a, 0x510e527f, 0x9b05688c, 0x1f83d9ab, 0x5be0cd19⟩

/-- Big-endian 32-bit words of a byte sequence (whose length is a multiple of four). -/
def wordsOfBytes : List Nat → List Nat
  | b0 :: b1 :: b2 :: b3 :: rest =>
      (b0 * 16777216 + b1 * 65536 + b2 * 256 + b3) :: wordsOfBytes rest
  | _ => []

/-- Extend a message schedule, kept newest word first, by `n` further words:
`W[t] = σ1(W[t-2]) + W[t-7] + σ0(W[t-15]) + W[t-16]`. -/
def extendSchedule : Nat → List Nat → List Nat
  | 0, w => w
  | n + 1, w =>
      let x := add32 (add32 (smallSigma1 (w.getD 1 0)) (w.getD 6 0))
                 (add32 (smallSigma0 (w.getD 14 0)) (w.getD 15 0))
      extendSchedule n (x :: w)

/-- The 64-word message schedule of one 16-word block, oldest word first. -/
def messageSchedule (block : List Nat) : List Nat :=
  (extendSchedule 48 block.reverse).reverse

/-- One round of the compression function, with round constant `k` and schedule word `w`. -/
def round (s : HashState) (k w : Nat) : HashState :=
  let t1 := add32 (add32 (add32 s.h (bigSigma1 s.e)) (add32 (ch32 s.e s.f s.g) k)) w
  let t2 := add32 (bigSigma0 s.a) (maj32 s.a s.b s.c)
  ⟨add32 t1 t2, s.a, s.b, s.c, add32 s.d t1, s.e, s.f, s.g⟩

/-- All rounds over the paired round constants and schedule words. -/
def rounds : HashState → List (Nat × Nat) → HashState
  | s, [] => s
  | s, (k, w) :: rest => rounds (round s k w) rest

/-- Compress one 16-word block into the chaining value. -/
def compress (hv : HashState) (block : List Nat) : HashState :=
  let s := rounds hv (roundConstants.zip (messageSchedule block))
  ⟨add32 hv.a s.a, add32 hv.b s.b, add32 hv.c s.c, add32 hv.d s.d,
   add32 hv.e s.e, add32 hv.f s.f, add32 hv.g s.g, add32 hv.h s.h⟩

/-- The eight bytes of the big-endian 64-bit encoding of `n`. -/
def be64 (n : Nat) : List Nat :=
  [(n >>> 56) % 256, (n >>> 48) % 256, (n >>> 40) % 256, (n >>> 32) % 256,
   (n >>> 24) % 256, (n >>> 16) % 256, (n >>> 8) % 256, n % 256]

/-- Message padding: a `0x80` byte, zero bytes up to 56 modulo 64, then the bit length. -/
def pad (msg : List Nat) : List Nat :=
  msg ++ 0x80 :: List.replicate ((119 - msg.length % 64) % 64) 0 ++ be64 (8 * msg.length)

/-- Fold the compression function over `n` consecutive 16-word blocks. -/
def hashBlocks : Nat → HashState → List Nat → HashState
  | 0, hv, _ => hv
  | n + 1, hv, ws => hashBlocks n (compress hv (ws.take 16)) (ws.drop 16)

/-- The four bytes of a 32-bit word, most significant first. -/
def bytesOfWord (w : Nat) : List Nat :=
  [(w >>> 24) % 256, (w >>> 16) % 256, (w >>> 8) % 256, w % 256]

/-- The 32 digest bytes of `crypto/sha256.Sum256`. -/
def Sum256 (msg : List Nat) : List Nat :=
  let p := pad msg
  let s := hashBlocks (p.length / 64) initialHash (wordsOfBytes p)
  bytesOfWord s.a ++ bytesOfWord s.b ++ bytesOfWord s.c ++ bytesOfWord s.d ++
  bytesOfWord s.e ++ bytesOfWord s.f ++ bytesOfWord s.g ++ bytesOfWord s.h

/-! ## Strings as bytes -/

/-- The UTF-8 encoding of one code point. -/
def utf8Bytes (c : Char) : List Nat :=
  let n := c.toNat
  if n < 128 then [n]
  else if n < 2048 then [192 + n / 64, 128 + n % 64]
  else if n < 65536 then [224 + n / 4096, 128 + n / 64 % 64, 128 + n % 64]
  else [240 + n / 262144, 128 + n / 4096 % 64, 128 + n / 64 % 64, 128 + n % 64]

/-- The bytes of a string, `[]byte(s)`. -/
def bytesOf (s : String) : List Nat :=
  s.data.flatMap utf8Bytes

/-! ## `bucket100` (main.go:136-140) -/

/-- The bucket of a string: the first two digest bytes as a 16-bit value, modulo 100.
```go
sum := sha256.Sum256([]byte(s))
v := int(sum[0])<<8 | int(sum[1])
return v % 100
``` -/
def bucket100 (s : String) : Int :=
  let sum := Sum256 (bytesOf s)
  let v : Int := Int.ofNat ((sum.getD 0 0 <<< 8) ||| sum.getD 1 0)
  Int.tmod v 100

/-! ## `strings.TrimSpace` -/

/-- The predicate `unicode.IsSpace`: the code points with the White_Space property. -/
def isSpace (c : Char) : Bool :=
  let n := c.toNat
  n == 0x09 || n == 0x0A || n == 0x0B || n == 0x0C || n == 0x0D || n == 0x20 ||
  n == 0x85 || n == 0xA0 || n == 0x1680 || (0x2000 ≤ n && n ≤ 0x200A) ||
  n == 0x2028 || n == 0x2029 || n == 0x202F || n == 0x205F || n == 0x3000

/-- The function `strings.TrimSpace`: drop leading and trailing white space. -/
def TrimSpace (s : String) : String :=
  ⟨((s.data.dropWhile isSpace).reverse.dropWhile isSpace).reverse⟩

/-! ## `strconv.Atoi` on a 64-bit platform -/

/-- The two errors of package `strconv`. -/
inductive NumError where
  | ErrSyntax
  | ErrRange
deriving DecidableEq, Repr

/-- The largest `uint64`. -/
def maxUint64 : Nat := 18446744073709551615

/-- The digit loop of `strconv.ParseUint(s, 10, 64)`: a byte that is not a decimal digit is
a syntax error, an accumulator that leaves the `uint64` range is a range error. -/
def parseUintLoop : List Char → Nat → Except NumError Nat
  | [], n => .ok n
  | c :: cs, n =>
      if 48 ≤ c.toNat ∧ c.toNat ≤ 57 then
        if n ≥ maxUint64 / 10 + 1 then .error .ErrRange
        else
          let n1 := n * 10 + (c.toNat - 48)
          if n1 > maxUint64 then .error .ErrRange
          else parseUintLoop cs n1
      else .error .ErrSyntax

/-- The function `strconv.ParseUint(s, 10, 64)`. -/
def ParseUint (s : List Char) : Except NumError Nat :=
  match s with
  | [] => .error .ErrSyntax
  | _ :: _ => parseUintLoop s 0

/-- The function `strconv.ParseInt(s, 10, 64)`: an optional sign, then `ParseUint`, then the
check against the `int64` range. -/
def ParseInt (s : List Char) : Except NumError Int :=
  match s with
  | [] => .error .ErrSyntax
  | c :: cs =>
      let neg : Bool := c == '-'
      let body := if c == '+' || c == '-' then cs else c :: cs
      match ParseUint body with
      | .error e => .error e
      | .ok un =>
          if neg = false ∧ un ≥ 9223372036854775808 then .error .ErrRange
          else if neg = true ∧ un > 9223372036854775808 then .error .ErrRange
          else .ok (if neg then - (un : Int) else (un : Int))

/-- The function `strconv.Atoi`; its fast path for short inputs computes the same result
as `ParseInt(s, 10, 0)`. -/
def Atoi (s : String) : Except NumError Int :=
  ParseInt s.data

/-! ## `clampPercent` (main.go:158-170) -/

/-- The migration percent of an environment value.
```go
n, err := strconv.Atoi(strings.TrimSpace(v))
if err != nil { return 0 }
if n < 0 { return 0 }
if n > 100 { return 100 }
return n
``` -/
def clampPercent (v : String) : Int :=
  match Atoi (TrimSpace v) with
  | .error _ => 0
  | .ok n =>
      if n < 0 then 0
      else if n > 100 then 100
      else n

/-! ## Requests -/

/-- The type `url.Values`: the parsed query, a finite map from keys to value lists. -/
abbrev Values := List (String × List String)

/-- The method `url.Values.Get`: the first value of the key, or the empty string. -/
def Values.Get (v : Values) (key : String) : String :=
  match v.lookup key with
  | some (x :: _) => x
  | _ => ""

/-- What the proxy reads of an `http.Request`: `r.URL.Path` and `r.URL.Query()`. -/
structure Request where
  Path : String
  Query : Values
deriving DecidableEq, Repr

/-! ## `chooseMovies` (main.go:83-105) -/

/-- The strangler-fig policy; `draw` is the value of `rand.Intn(100)`, which only the
last branch consumes.
```go
if !gradual || percent <= 0 { return monolith }
if percent >= 100 { return movies }
if id := strings.TrimSpace(r.URL.Query().Get("id")); id != "" {
    b := bucket100("id=" + id)
    if b < percent { return movies }
    return monolith
}
if rand.Intn(100) < percent { return movies }
return monolith
``` -/
def chooseMovies {H : Type} (r : Request) (gradual : Bool) (percent : Int)
    (monolith movies : H) (draw : Nat) : H :=
  if gradual = false ∨ percent ≤ 0 then monolith
  else if percent ≥ 100 then movies
  else
    let id := TrimSpace (r.Query.Get "id")
    if id ≠ "" then
      if bucket100 ("id=" ++ id) < percent then movies else monolith
    else if (draw : Int) < percent then movies
    else monolith

/-! ## The dispatcher: the `http.ServeMux` of `main` (main.go:41-71) -/

/-- The three reverse proxies created by `newProxy` in `main`. -/
inductive Backend where
  | monolith
  | movies
  | events
deriving DecidableEq, Repr

/-- What happens to a request: answered locally with 200 `OK`, forwarded by one of the
reverse proxies, or answered by `ServeMux` itself: 404, or a 301 whose `Location` is made
of the URL path `location` and the query string of the request. -/
inductive Outcome where
  | localOK
  | proxied (b : Backend)
  | notFound
  | redirect (location : String)
deriving DecidableEq, Repr

/-- An `http.Handler`, run on a request and on the draw `rand.Intn(100)` would give. -/
abbrev Handler := Request → Nat → Outcome

/-- The method `ServeHTTP` of a reverse proxy: the request goes to that backend. -/
def proxyHandler (b : Backend) : Handler :=
  fun _ _ => Outcome.proxied b

/-- The eight patterns registered in `main`, in registration order. -/
inductive Route where
  | health
  | users
  | usersTree
  | events
  | eventsTree
  | movies
  | moviesTree
  | apiTree
deriving DecidableEq, Repr

/-- The pattern string of a route. -/
def Route.pattern : Route → String
  | .health => "/health"
  | .users => "/api/users"
  | .usersTree => "/api/users/"
  | .events => "/api/events"
  | .eventsTree => "/api/events/"
  | .movies => "/api/movies"
  | .moviesTree => "/api/movies/"
  | .apiTree => "/api/"

/-- The handler registered for a route (main.go:44-71). -/
def Route.handler (gradual : Bool) (percent : Int) : Route → Handler
  | .health => fun _ _ => Outcome.localOK
  | .users => proxyHandler .monolith
  | .usersTree => proxyHandler .monolith
  | .events => proxyHandler .events
  | .eventsTree => proxyHandler .events
  | .movies => fun r draw =>
      chooseMovies r gradual percent (proxyHandler .monolith) (proxyHandler .movies) draw r draw
  | .moviesTree => fun r draw =>
      if r.Path = "/api/movies/health" then proxyHandler .movies r draw
      else chooseMovies r gradual percent (proxyHandler .monolith) (proxyHandler .movies) draw r draw
  | .apiTree => proxyHandler .monolith

/-- All registered routes. -/
def routes : List Route :=
  [.health, .users, .usersTree, .events, .eventsTree, .movies, .moviesTree, .apiTree]

/-- Whether a path ends in a slash. -/
def endsInSlash (p : String) : Bool :=
  p.data.getLast? == some '/'

/-- Split a path at its slashes. -/
def splitSlash : List Char → List (List Char)
  | [] => [[]]
  | c :: cs =>
      match splitSlash cs with
      | [] => [[]]
      | seg :: rest => if c = '/' then [] :: seg :: rest else (c :: seg) :: rest

/-- The element pass of `path.Clean` on a rooted path: empty and `.` elements are
dropped, `..` removes the element before it; `acc` holds the kept elements, last first. -/
def cleanSegments : List (List Char) → List (List Char) → List (List Char)
  | [], acc => acc.reverse
  | seg :: rest, acc =>
      if seg = [] ∨ seg = ['.'] then cleanSegments rest acc
      else if seg = ['.', '.'] then cleanSegments rest acc.tail
      else cleanSegments rest (seg :: acc)

/-- The function `cleanPath` of `net/http`: the canonical form of a request path, a
trailing slash being kept. -/
def cleanPath (p : String) : String :=
  if p = "" then "/"
  else
    let p1 : List Char := if p.data.head? = some '/' then p.data else '/' :: p.data
    let np : List Char := '/' :: List.intercalate ['/'] (cleanSegments (splitSlash p1) [])
    if p1.getLast? = some '/' ∧ np ≠ ['/'] then ⟨np ++ ['/']⟩ else ⟨np⟩

/-- The value of a hexadecimal digit. -/
def hexValue (c : Char) : Option Nat :=
  let n := c.toNat
  if 48 ≤ n ∧ n ≤ 57 then some (n - 48)
  else if 97 ≤ n ∧ n ≤ 102 then some (n - 87)
  else if 65 ≤ n ∧ n ≤ 70 then some (n - 55)
  else none

/-- The decoding loop of `url.PathUnescape`: a percent sign and two hexadecimal digits
stand for one byte, kept here as the character with that code; a percent sign followed
by anything else is an error. -/
def unescapeLoop : List Char → Option (List Char)
  | [] => some []
  | c :: rest =>
      if c = '%' then
        match rest with
        | a :: b :: rest2 =>
            match hexValue a, hexValue b, unescapeLoop rest2 with
            | some x, some y, some out => some (Char.ofNat (16 * x + y) :: out)
            | _, _, _ => none
        | _ => none
      else
        match unescapeLoop rest with
        | some out => some (c :: out)
        | none => none

/-- The function `pathUnescape` of `net/http`: the decoded segment, or the segment itself
when it does not decode. -/
def pathUnescape (seg : List Char) : List Char :=
  (unescapeLoop seg).getD seg

/-- The segments of a rooted path, the text between its slashes; a trailing slash gives a
last, empty segment. -/
def pathSegments (p : String) : List (List Char) :=
  (splitSlash p.data).tail

/-- Whether the segments of a pattern match the segments of an escaped path, as the
routing tree of `ServeMux` decides it (Go 1.22 and later): the path is split at its
slashes first and each segment is decoded on its own, a literal pattern segment matches
the equal decoded segment, and the empty last segment of a pattern that ends in a slash
matches any rest that is not empty. -/
def segmentsMatch : List (List Char) → List (List Char) → Bool
  | [], path => path.isEmpty
  | ps :: pat, path =>
      match path with
      | [] => false
      | seg :: rest =>
          if ps.isEmpty && pat.isEmpty then true
          else ps == pathUnescape seg && segmentsMatch pat rest

/-- Whether a registered pattern matches an escaped path. -/
def patternMatches (pat path : String) : Bool :=
  segmentsMatch (pathSegments pat) (pathSegments path)

/-- Keep the better of two candidate routes: the longer pattern wins. -/
def betterRoute (best : Option Route) (r : Route) : Option Route :=
  match best with
  | none => some r
  | some b => if b.pattern.length < r.pattern.length then some r else some b

/-- The route `ServeMux` picks for a canonical escaped path: the most specific matching
pattern, which among these patterns is the longest one. -/
def matchRoute (path : String) : Option Route :=
  (routes.filter (fun r => patternMatches r.pattern path)).foldl betterRoute none

/-- The function `exactMatch` of `net/http`: a match is exact unless the pattern ends in a
slash and stands for more than the path itself. -/
def exactMatch (n : Option Route) (path : String) : Bool :=
  match n with
  | none => false
  | some route =>
      if endsInSlash route.pattern then
        endsInSlash path && (pathSegments route.pattern).length == path.data.count '/'
      else true

/-- The method `ServeMux.ServeHTTP` for the table of `main` (Go 1.22 and later), on a
request whose method is not CONNECT.  The argument `escapedPath` is `r.URL.EscapedPath()`,
the path as it was sent, of which `r.Path` is the decoded form.  The mux cleans the escaped
path and matches it segment by segment; a path that has no exact match while the path with
a slash appended has one, and a path that is not canonical, are answered with a redirect;
a path no pattern matches is answered 404; any other request runs the handler of the
matched pattern. -/
def serveMux (gradual : Bool) (percent : Int) (escapedPath : String) (r : Request)
    (draw : Nat) : Outcome :=
  let path := cleanPath escapedPath
  let n := matchRoute path
  if exactMatch n path = false ∧ endsInSlash path = false ∧
      exactMatch (matchRoute (path ++ "/")) (path ++ "/") = true then
    Outcome.redirect (cleanPath r.Path ++ "/")
  else if path ≠ escapedPath then Outcome.redirect path
  else
    match n with
    | none => Outcome.notFound
    | some route => route.handler gradual percent r draw

/-! ## Decimal numerals, the vocabulary of the statements about `clampPercent` -/

/-- The optional sign of a decimal numeral. -/
inductive Sign where
  | none
  | plus
  | minus
deriving DecidableEq, Repr

/-- The characters of a sign. -/
def Sign.chars : Sign → List Char
  | .none => []
  | .plus => ['+']
  | .minus => ['-']

/-- The integer a sign makes of a magnitude. -/
def Sign.apply : Sign → Nat → Int
  | .minus, m => - (m : Int)
  | _, m => (m : Int)

/-- The character of a decimal digit. -/
def digitChar (d : Nat) : Char := Char.ofNat (48 + d)

/-- The value of a digit sequence, most significant digit first. -/
def numeralValue (ds : List Nat) : Nat := Nat.ofDigits 10 ds.reverse

/-- The string `s` is the decimal integer `n`: an optional sign followed by one or more
decimal digits that denote `n`. -/
def IsDecimalInteger (s : String) (n : Int) : Prop :=
  ∃ (sign : Sign) (ds : List Nat), ds ≠ [] ∧ (∀ d ∈ ds, d < 10) ∧
    s.data = sign.chars ++ ds.map digitChar ∧ n = sign.apply (numeralValue ds)

/-- The accumulator of the digit loop after the digits `ds`. -/
def accumulate (acc : Nat) (ds : List Nat) : Nat :=
  ds.foldl (fun a d => a * 10 + d) acc

/-! ## The error handler of `newProxy` (main.go:107-123) -/

/-- What has gone through an `http.ResponseWriter`: the header map `w.Header()`, the status
code and the headers sent once `WriteHeader` has run, and the body written so far. -/
structure ResponseWriter where
  header : List (String × String)
  wrote : Option (Nat × List (String × String))
  body : String
deriving DecidableEq, Repr

/-- The call `w.Header().Set(k, v)`: the values of `k` are replaced by `v`. -/
def ResponseWriter.SetHeader (w : ResponseWriter) (k v : String) : ResponseWriter :=
  { w with header := (k, v) :: w.header.filter (fun kv => kv.1 != k) }

/-- The call `w.WriteHeader(code)`: the first call sends the status and the header map,
a later call is ignored. -/
def ResponseWriter.WriteHeader (w : ResponseWriter) (code : Nat) : ResponseWriter :=
  match w.wrote with
  | some _ => w
  | none => { w with wrote := some (code, w.header) }

/-- The call `w.Write(data)`: status 200 is sent first if none was, then the data. -/
def ResponseWriter.Write (w : ResponseWriter) (data : String) : ResponseWriter :=
  let w1 := w.WriteHeader 200
  { w1 with body := w1.body ++ data }

/-- The type `errResp` (main.go:20-22), encoded with the key `error`. -/
structure errResp where
  Error : String
deriving DecidableEq, Repr

/-- A hexadecimal digit. -/
def hexDigit (n : Nat) : Char :=
  if n < 10 then Char.ofNat (48 + n) else Char.ofNat (87 + n)

/-- One character inside a JSON string, as `encoding/json` writes it with its default
HTML escaping: the quote, the backslash and the usual control characters by a backslash
sequence, other control characters, `<`, `>`, `&`, U+2028 and U+2029 as `\u` and four
hexadecimal digits, any other character as itself. -/
def jsonEscape (c : Char) : List Char :=
  let n := c.toNat
  if c = '"' then ['\\', '"']
  else if c = '\\' then ['\\', '\\']
  else if c = '\n' then ['\\', 'n']
  else if c = '\r' then ['\\', 'r']
  else if c = '\t' then ['\\', 't']
  else if n < 32 ∨ c = '<' ∨ c = '>' ∨ c = '&' ∨ n = 8232 ∨ n = 8233 then
    ['\\', 'u', hexDigit (n / 4096 % 16), hexDigit (n / 256 % 16), hexDigit (n / 16 % 16),
      hexDigit (n % 16)]
  else [c]

/-- A JSON string literal. -/
def jsonQuote (s : String) : String :=
  ⟨'"' :: s.data.flatMap jsonEscape ++ ['"']⟩

/-- The output of `json.NewEncoder(w).Encode(e)` for an `errResp`: the object with the
single key `error`, followed by a newline. -/
def encodeErrResp (e : errResp) : String :=
  "\x7b\"error\":" ++ jsonQuote e.Error ++ "\x7d\n"

/-- The `ErrorHandler` closure of `newProxy`; `method` is `r.Method` and `err` the text of
the transport error.  It gives the writer after the call and the line it logs.
```go
log.Printf("upstream error %s %s -> %v", r.Method, r.URL.Path, err)
w.Header().Set("Content-Type", "application/json")
w.WriteHeader(http.StatusBadGateway)
_ = json.NewEncoder(w).Encode(errResp{Error: "upstream unavailable"})
``` -/
def errorHandler (w : ResponseWriter) (method : String) (r : Request) (err : String) :
    ResponseWriter × String :=
  let line := "upstream error " ++ method ++ " " ++ r.Path ++ " -> " ++ err
  let w1 := w.SetHeader "Content-Type" "application/json"
  let w2 := w1.WriteHeader 502
  let w3 := w2.Write (encodeErrResp ⟨"upstream unavailable"⟩)
  (w3, line)

/-- The reverse proxy `newProxy` builds for a target URL: the target and the error handler
installed on it. -/
structure ReverseProxy where
  target : String
  ErrorHandler : ResponseWriter → String → Request → String → ResponseWriter × String

/-- The function `newProxy` (main.go:107-123). -/
def newProxy (target : String) : ReverseProxy :=
  ⟨target, errorHandler⟩

/-! ## Path predicates -/

/-- The function `strings.HasPrefix`. -/
def HasPrefix (s pre : String) : Bool :=
  pre.data.isPrefixOf s.data

/-- A path is one of the specific bindings of `main`: the local `/health` endpoint or a
member of the users, events or movies family. -/
def isSpecificBinding (path : String) : Bool :=
  path == "/health" ||
  path == "/api/users" || HasPrefix path "/api/users/" ||
  path == "/api/events" || HasPrefix path "/api/events/" ||
  path == "/api/movies" || HasPrefix path "/api/movies/"

/-! ## Sample requests -/

/-- The request `GET /api/movies?id=42`. -/
def reqId42 : Request := ⟨"/api/movies", [("id", ["42"])]⟩

/-- The request `GET /api/movies`, without a query. -/
def reqNoId : Request := ⟨"/api/movies", []⟩

/-! ## SHA-256 and `bucket100` -/

/-- Known answer: the digest of `"abc"` (FIPS 180-4, appendix B.1). -/
theorem Sum256_abc : Sum256 (bytesOf "abc") =
    [0xba, 0x78, 0x16, 0xbf, 0x8f, 0x01, 0xcf, 0xea, 0x41, 0x41, 0x40, 0xde, 0x5d, 0xae,
     0x22, 0x23, 0xb0, 0x03, 0x61, 0xa3, 0x96, 0x17, 0x7a, 0x9c, 0xb4, 0x10, 0xff, 0x61,
     0xf2, 0x00, 0x15, 0xad] := by
  decide!

/-- Known answer: the digest of the empty string starts `e3 b0 c4 42`. -/
theorem Sum256_empty : (Sum256 (bytesOf "")).take 4 = [0xe3, 0xb0, 0xc4, 0x42] := by
  decide!

/-- The bucket of the identity `42`. -/
theorem bucket100_id42 : bucket100 "id=42" = 37 := by
  decide!

/-- The digest starts with the two high bytes of the first chaining word. -/
theorem Sum256_head (m : List Nat) :
    ∃ a rest, Sum256 m = (a >>> 24) % 256 :: (a >>> 16) % 256 :: rest := by
  refine ⟨(hashBlocks ((pad m).length / 64) initialHash (wordsOfBytes (pad m))).a, ?_⟩
  simp only [Sum256, bytesOfWord, List.cons_append]
  exact ⟨_, rfl⟩

/-- The digest has 32 bytes. -/
theorem Sum256_length (m : List Nat) : (Sum256 m).length = 32 := by
  simp [Sum256, bytesOfWord]

/-- On a byte, or-ing into a value shifted left by eight bits is addition. -/
theorem shiftLeft8_lor (x y : Nat) (hy : y < 256) : (x <<< 8) ||| y = 256 * x + y := by
  have h := Nat.mul_add_lt_is_or (i := 8) (b := y) (by simpa using hy) x
  rw [Nat.shiftLeft_eq, Nat.mul_comm x]
  exact h.symm

/-- C8: `bucket100` is total and bounded: every string, the empty one included, has a
bucket `b` with `0 ≤ b < 100`, and equal strings have equal buckets. -/
theorem bucket100_total_bounded (s : String) :
    (∃ b : Int, bucket100 s = b ∧ 0 ≤ b ∧ b < 100) ∧
    (∀ s' : String, s' = s → bucket100 s' = bucket100 s) := by
  refine ⟨⟨bucket100 s, rfl, ?_, ?_⟩, fun s' h => by rw [h]⟩
  · unfold bucket100
    exact Int.tmod_nonneg _ (Int.ofNat_nonneg _)
  · unfold bucket100
    exact Int.tmod_lt_of_pos _ (by decide)

/-- Witness of C8 at the empty string. -/
theorem bucket100_total_bounded_witness :
    (∃ b : Int, bucket100 "" = b ∧ 0 ≤ b ∧ b < 100) ∧ bucket100 "" = bucket100 "" :=
  ⟨(bucket100_total_bounded "").1, (bucket100_total_bounded "").2 "" rfl⟩

/-- C9: the bucket of `s` is `(256 * d0 + d1) mod 100`, where `d0` and `d1` are the first
and second of the 32 bytes of the SHA-256 digest of the bytes of `s`. -/
theorem bucket100_eq_digest_prefix_mod (s : String) :
    (Sum256 (bytesOf s)).length = 32 ∧
    bucket100 s =
      Int.ofNat ((256 * (Sum256 (bytesOf s)).getD 0 0 + (Sum256 (bytesOf s)).getD 1 0) % 100) := by
  refine ⟨Sum256_length _, ?_⟩
  obtain ⟨a, rest, h⟩ := Sum256_head (bytesOf s)
  simp only [bucket100, h, List.getD_cons_zero, List.getD_cons_succ]
  rw [shiftLeft8_lor _ _ (Nat.mod_lt _ (by decide))]
  rfl

/-! ## `chooseMovies` -/

/-- With migration enabled and a percent strictly between 0 and 100 the first two
branches are not taken. -/
theorem chooseMovies_mid {H : Type} (r : Request) (p : Int) (monolith movies : H) (draw : Nat)
    (hp0 : 0 < p) (hp1 : p < 100) :
    chooseMovies r true p monolith movies draw =
      if TrimSpace (r.Query.Get "id") ≠ "" then
        (if bucket100 ("id=" ++ TrimSpace (r.Query.Get "id")) < p then movies else monolith)
      else if (draw : Int) < p then movies else monolith := by
  unfold chooseMovies
  rw [if_neg (by simp; omega), if_neg (by omega)]

/-- With migration enabled and a percent of at least 100 the second branch is taken. -/
theorem chooseMovies_full {H : Type} (r : Request) (percent : Int) (monolith movies : H)
    (draw : Nat) (h : 100 ≤ percent) :
    chooseMovies r true percent monolith movies draw = movies := by
  unfold chooseMovies
  rw [if_neg (by simp; omega), if_pos (by omega)]

/-- C1: for every request and every draw, `chooseMovies` selects the legacy handler when
gradual migration is disabled (whatever the percent) or the percent is 0 (whatever the
flag). -/
theorem chooseMovies_legacy_of_disabled_or_zero {H : Type} (r : Request) (gradual : Bool)
    (percent : Int) (monolith movies : H) (draw : Nat)
    (h : gradual = false ∨ percent = 0) :
    chooseMovies r gradual percent monolith movies draw = monolith := by
  unfold chooseMovies
  rw [if_pos]
  rcases h with h | h
  · exact Or.inl h
  · exact Or.inr (by omega)

/-- Witness of C1: migration disabled, percent 80, identity 42. -/
theorem chooseMovies_legacy_of_disabled_or_zero_witness :
    (false = false ∨ (80 : Int) = 0) ∧
    chooseMovies reqId42 false 80 Backend.monolith Backend.movies 7 = Backend.monolith :=
  ⟨Or.inl rfl,
    chooseMovies_legacy_of_disabled_or_zero reqId42 false 80 Backend.monolith Backend.movies 7
      (Or.inl rfl)⟩

/-- C2: for every request and every draw, with gradual migration enabled and a percent of
at least 100, `chooseMovies` selects the new handler. -/
theorem chooseMovies_new_of_percent_ge_100 {H : Type} (r : Request) (percent : Int)
    (monolith movies : H) (draw : Nat) (h : 100 ≤ percent) :
    chooseMovies r true percent monolith movies draw = movies :=
  chooseMovies_full r percent monolith movies draw h

/-- Witness of C2: percent 250, no identity, the largest draw. -/
theorem chooseMovies_new_of_percent_ge_100_witness :
    (100 : Int) ≤ 250 ∧
    chooseMovies reqNoId true 250 Backend.monolith Backend.movies 99 = Backend.movies :=
  ⟨by decide,
    chooseMovies_new_of_percent_ge_100 reqNoId 250 Backend.monolith Backend.movies 99
      (by decide)⟩

/-- Counterexample to C3 as stated: with percent 100 and gradual migration disabled the
request goes to the legacy handler, not to the new one. -/
theorem chooseMovies_percent_100_disabled_legacy :
    chooseMovies reqId42 false 100 Backend.monolith Backend.movies 0 = Backend.monolith ∧
    chooseMovies reqId42 false 100 Backend.monolith Backend.movies 0 ≠ Backend.movies := by
  decide

/-- C3, amended: for every configuration with gradual migration enabled and percent 100,
every request, whatever its identity and the draw, goes to the new handler. -/
theorem chooseMovies_new_of_enabled_percent_100 {H : Type} (r : Request)
    (monolith movies : H) (draw : Nat) :
    chooseMovies r true 100 monolith movies draw = movies :=
  chooseMovies_full r 100 monolith movies draw (le_refl _)

/-- C4: with gradual migration enabled, a percent `p` strictly between 0 and 100 and a
request whose trimmed `id` value `t` is not empty, `chooseMovies` selects the new handler
exactly when `bucket100 ("id=" ++ t) < p` and the legacy handler otherwise; the draw plays
no part, and any two calls with the same identity and percent select the same handler. -/
theorem chooseMovies_identity_deterministic {H : Type} (r : Request) (p : Int)
    (monolith movies : H) (t : String) (hp0 : 0 < p) (hp1 : p < 100)
    (ht : TrimSpace (r.Query.Get "id") = t) (hne : t ≠ "") (hd : monolith ≠ movies) :
    (∀ draw : Nat,
      (chooseMovies r true p monolith movies draw = movies ↔ bucket100 ("id=" ++ t) < p) ∧
      (chooseMovies r true p monolith movies draw = monolith ↔
        ¬ bucket100 ("id=" ++ t) < p)) ∧
    (∀ (r' : Request) (d d' : Nat), TrimSpace (r'.Query.Get "id") = t →
      chooseMovies r' true p monolith movies d' = chooseMovies r true p monolith movies d) := by
  have key : ∀ (r' : Request) (d : Nat), TrimSpace (r'.Query.Get "id") = t →
      chooseMovies r' true p monolith movies d =
        if bucket100 ("id=" ++ t) < p then movies else monolith := by
    intro r' d h
    rw [chooseMovies_mid r' p monolith movies d hp0 hp1, h, if_pos hne]
  refine ⟨fun draw => ?_, fun r' d d' h => ?_⟩
  · rw [key r draw ht]
    by_cases hb : bucket100 ("id=" ++ t) < p
    · simp [hb, Ne.symm hd]
    · simp [hb, hd]
  · rw [key r' d' h, key r d ht]

/-- Witness of C4: identity 42 at percent 50. -/
theorem chooseMovies_identity_deterministic_witness :
    (0 : Int) < 50 ∧ (50 : Int) < 100 ∧ TrimSpace (reqId42.Query.Get "id") = "42" ∧
    "42" ≠ "" ∧ Backend.monolith ≠ Backend.movies ∧
    ((∀ draw : Nat,
      (chooseMovies reqId42 true 50 Backend.monolith Backend.movies draw = Backend.movies ↔
        bucket100 ("id=" ++ "42") < 50) ∧
      (chooseMovies reqId42 true 50 Backend.monolith Backend.movies draw = Backend.monolith ↔
        ¬ bucket100 ("id=" ++ "42") < 50)) ∧
    (∀ (r' : Request) (d d' : Nat), TrimSpace (r'.Query.Get "id") = "42" →
      chooseMovies r' true 50 Backend.monolith Backend.movies d' =
        chooseMovies reqId42 true 50 Backend.monolith Backend.movies d)) :=
  ⟨by decide, by decide, by decide, by decide, by decide,
    chooseMovies_identity_deterministic reqId42 50 Backend.monolith Backend.movies "42"
      (by decide) (by decide) (by decide) (by decide) (by decide)⟩

/-- The scenario of the specification: identity 42 at percent 50 has bucket 37 and goes to
the new handler, at every draw. -/
theorem chooseMovies_id42_half (draw : Nat) :
    chooseMovies reqId42 true 50 Backend.monolith Backend.movies draw = Backend.movies := by
  have ht : TrimSpace (reqId42.Query.Get "id") = "42" := by decide
  have hb : bucket100 ("id=" ++ "42") = 37 := bucket100_id42
  rw [chooseMovies_mid reqId42 50 _ _ draw (by decide) (by decide), ht, if_pos (by decide), hb,
    if_pos (by decide)]

/-- Of the first `n` naturals, `m` are below `m`, when `m ≤ n`. -/
theorem filter_lt_range (n m : Nat) (h : m ≤ n) :
    ((List.range n).filter (fun d => decide (d < m))).length = m := by
  induction n with
  | zero =>
      have h0 : m = 0 := by omega
      subst h0
      rfl
  | succ n ih =>
      rw [List.range_succ, List.filter_append, List.length_append]
      by_cases hm : m ≤ n
      · rw [ih hm]
        simp
        omega
      · have hmn : m = n + 1 := by omega
        subst hmn
        have hall : (List.range n).filter (fun d => decide (d < n + 1)) = List.range n := by
          rw [List.filter_eq_self]
          intro a ha
          have := List.mem_range.mp ha
          simp
          omega
        rw [hall]
        simp

/-- C5: with gradual migration enabled, a percent `p` strictly between 0 and 100 and a
request without identity (the `id` value absent, empty or white space only),
`chooseMovies` selects the new handler exactly when the draw is below `p`; so exactly `p`
of the 100 draws select it, and the decision is a function of the draw alone: two
requests without identity are treated alike at equal draws. -/
theorem chooseMovies_no_identity_draw {H : Type} [DecidableEq H] (r : Request) (p : Int)
    (monolith movies : H) (hp0 : 0 < p) (hp1 : p < 100)
    (hid : TrimSpace (r.Query.Get "id") = "") (hd : monolith ≠ movies) :
    (∀ draw : Nat,
      (chooseMovies r true p monolith movies draw = movies ↔ (draw : Int) < p) ∧
      (chooseMovies r true p monolith movies draw = monolith ↔ ¬ (draw : Int) < p)) ∧
    (((List.range 100).filter
        (fun draw => decide (chooseMovies r true p monolith movies draw = movies))).length : Int)
      = p ∧
    (∀ (r' : Request) (draw : Nat), TrimSpace (r'.Query.Get "id") = "" →
      chooseMovies r' true p monolith movies draw =
        chooseMovies r true p monolith movies draw) := by
  have key : ∀ (r' : Request) (d : Nat), TrimSpace (r'.Query.Get "id") = "" →
      chooseMovies r' true p monolith movies d =
        if (d : Int) < p then movies else monolith := by
    intro r' d h
    rw [chooseMovies_mid r' p monolith movies d hp0 hp1, h, if_neg (fun h => h rfl)]
  have hiff : ∀ draw : Nat,
      (chooseMovies r true p monolith movies draw = movies ↔ (draw : Int) < p) := by
    intro draw
    rw [key r draw hid]
    by_cases hb : (draw : Int) < p
    · simp [hb]
    · simp [hb, hd]
  refine ⟨fun draw => ⟨hiff draw, ?_⟩, ?_, fun r' d h => ?_⟩
  · rw [key r draw hid]
    by_cases hb : (draw : Int) < p
    · simp [hb, Ne.symm hd]
    · simp [hb]
  · obtain ⟨m, rfl⟩ := Int.eq_ofNat_of_zero_le (le_of_lt hp0)
    have hfun : (fun draw : Nat =>
        decide (chooseMovies r true (m : Int) monolith movies draw = movies)) =
        (fun d => decide (d < m)) := by
      funext d
      rw [decide_eq_decide, hiff d]
      exact Int.ofNat_lt
    rw [hfun, filter_lt_range 100 m (by omega)]
  · rw [key r' d h, key r d hid]

/-- Witness of C5: no query at all, percent 30. -/
theorem chooseMovies_no_identity_draw_witness :
    (0 : Int) < 30 ∧ (30 : Int) < 100 ∧ TrimSpace (reqNoId.Query.Get "id") = "" ∧
    Backend.monolith ≠ Backend.movies ∧
    ((∀ draw : Nat,
      (chooseMovies reqNoId true 30 Backend.monolith Backend.movies draw = Backend.movies ↔
        (draw : Int) < 30) ∧
      (chooseMovies reqNoId true 30 Backend.monolith Backend.movies draw = Backend.monolith ↔
        ¬ (draw : Int) < 30)) ∧
    (((List.range 100).filter (fun draw =>
        decide (chooseMovies reqNoId true 30 Backend.monolith Backend.movies draw
          = Backend.movies))).length : Int) = 30 ∧
    (∀ (r' : Request) (draw : Nat), TrimSpace (r'.Query.Get "id") = "" →
      chooseMovies r' true 30 Backend.monolith Backend.movies draw =
        chooseMovies reqNoId true 30 Backend.monolith Backend.movies draw)) :=
  ⟨by decide, by decide, by decide, by decide,
    chooseMovies_no_identity_draw reqNoId 30 Backend.monolith Backend.movies (by decide)
      (by decide) (by decide) (by decide)⟩

/-! ## `clampPercent` -/

/-- C6: for every input string, `clampPercent` gives an integer between 0 and 100. -/
theorem clampPercent_in_range (v : String) : 0 ≤ clampPercent v ∧ clampPercent v ≤ 100 := by
  unfold clampPercent
  split
  · omega
  · split
    · omega
    · split <;> omega

/-- The code point of a digit character. -/
theorem digitChar_toNat (d : Nat) (h : d < 10) : (digitChar d).toNat = 48 + d := by
  unfold digitChar
  interval_cases d <;> rfl

/-- A character in the range `'0'..'9'` is the character of its digit. -/
theorem digitChar_of_range (c : Char) (h : 48 ≤ c.toNat ∧ c.toNat ≤ 57) :
    c = digitChar (c.toNat - 48) := by
  unfold digitChar
  rw [show 48 + (c.toNat - 48) = c.toNat by omega, Char.ofNat_toNat]

/-- The accumulator only grows. -/
theorem accumulate_ge (ds : List Nat) (acc : Nat) : acc ≤ accumulate acc ds := by
  induction ds generalizing acc with
  | nil => exact Nat.le_refl _
  | cons d ds ih =>
      have := ih (acc * 10 + d)
      simp only [accumulate, List.foldl_cons] at this ⊢
      omega

/-- The accumulator in closed form. -/
theorem accumulate_eq (ds : List Nat) (acc : Nat) :
    accumulate acc ds = acc * 10 ^ ds.length + numeralValue ds := by
  induction ds generalizing acc with
  | nil => simp [accumulate, numeralValue]
  | cons d ds ih =>
      have h1 := ih (acc * 10 + d)
      have h3 : accumulate acc (d :: ds) = accumulate (acc * 10 + d) ds := by simp [accumulate]
      rw [h3, h1]
      simp only [numeralValue, List.reverse_cons, Nat.ofDigits_append, List.length_reverse,
        List.length_cons, Nat.ofDigits_singleton]
      ring

/-- The digit loop on digits: the accumulated value, or a range error once it leaves the
`uint64` range. -/
theorem parseUintLoop_digits (ds : List Nat) (acc : Nat) (hds : ∀ d ∈ ds, d < 10)
    (hacc : acc ≤ maxUint64) :
    parseUintLoop (ds.map digitChar) acc =
      if accumulate acc ds ≤ maxUint64 then .ok (accumulate acc ds)
      else .error .ErrRange := by
  induction ds generalizing acc with
  | nil => simp [parseUintLoop, accumulate, hacc]
  | cons d ds ih =>
      have hd : d < 10 := hds d (List.mem_cons_self _ _)
      have hrest : ∀ x ∈ ds, x < 10 := fun x hx => hds x (List.mem_cons_of_mem _ hx)
      have hge := accumulate_ge ds (acc * 10 + d)
      have hstep : accumulate acc (d :: ds) = accumulate (acc * 10 + d) ds := by
        simp [accumulate]
      simp only [List.map_cons, parseUintLoop, digitChar_toNat d hd, hstep]
      rw [if_pos (by omega), show 48 + d - 48 = d by omega]
      simp only [maxUint64] at hge hacc ih ⊢
      by_cases h1 : acc ≥ 18446744073709551615 / 10 + 1
      · rw [if_pos h1, if_neg (by omega)]
      · rw [if_neg h1]
        by_cases h2 : acc * 10 + d > 18446744073709551615
        · rw [if_pos h2, if_neg (by omega)]
        · rw [if_neg h2, ih _ hrest (by omega)]

/-- The digit loop succeeds on digit characters only. -/
theorem parseUintLoop_ok (cs : List Char) (acc m : Nat) (h : parseUintLoop cs acc = .ok m) :
    ∃ ds : List Nat, (∀ d ∈ ds, d < 10) ∧ cs = ds.map digitChar := by
  induction cs generalizing acc with
  | nil => exact ⟨[], by simp, rfl⟩
  | cons c cs ih =>
      simp only [parseUintLoop] at h
      by_cases hc : 48 ≤ c.toNat ∧ c.toNat ≤ 57
      · rw [if_pos hc] at h
        split at h
        · cases h
        · split at h
          · cases h
          · obtain ⟨ds, hds, hcs⟩ := ih _ h
            refine ⟨(c.toNat - 48) :: ds, ?_, ?_⟩
            · intro d hd
              rcases List.mem_cons.mp hd with rfl | hd
              · omega
              · exact hds d hd
            · rw [List.map_cons, ← digitChar_of_range c hc, hcs]
      · rw [if_neg hc] at h
        cases h

/-- The result of `ParseInt` on a sign followed by digits: the value, if it is in the
`int64` range, and a range error otherwise. -/
theorem parseInt_numeral (sign : Sign) (ds : List Nat) (hne : ds ≠ [])
    (hds : ∀ d ∈ ds, d < 10) :
    ParseInt (sign.chars ++ ds.map digitChar) =
      if - 9223372036854775808 ≤ sign.apply (numeralValue ds) ∧
          sign.apply (numeralValue ds) ≤ 9223372036854775807 then
        .ok (sign.apply (numeralValue ds))
      else .error .ErrRange := by
  have hloop := parseUintLoop_digits ds 0 hds (by decide)
  rw [accumulate_eq, Nat.zero_mul, Nat.zero_add] at hloop
  have hU : ParseUint (ds.map digitChar) =
      if numeralValue ds ≤ maxUint64 then .ok (numeralValue ds) else .error .ErrRange := by
    cases ds with
    | nil => exact absurd rfl hne
    | cons d ds => exact hloop
  clear hloop
  generalize numeralValue ds = v at hU ⊢
  simp only [maxUint64] at hU
  cases sign with
  | none =>
      cases ds with
      | nil => exact absurd rfl hne
      | cons d ds =>
          have hd : d < 10 := hds d (List.mem_cons_self _ _)
          have hplus : (digitChar d == '+') = false := by
            rw [beq_eq_false_iff_ne]
            intro h
            have := congrArg Char.toNat h
            rw [digitChar_toNat d hd] at this
            have h2 : ('+' : Char).toNat = 43 := rfl
            omega
          have hminus : (digitChar d == '-') = false := by
            rw [beq_eq_false_iff_ne]
            intro h
            have := congrArg Char.toNat h
            rw [digitChar_toNat d hd] at this
            have h2 : ('-' : Char).toNat = 45 := rfl
            omega
          simp only [Sign.chars, List.nil_append, List.map_cons, ParseInt, Sign.apply, hplus,
            hminus, Bool.or_self, Bool.false_eq_true, if_false] at hU ⊢
          rw [hU]
          by_cases h1 : v ≤ 18446744073709551615
          · rw [if_pos h1]
            by_cases h2 : v ≥ 9223372036854775808
            · simp only [h2, and_self, if_true, true_and]
              rw [if_neg (by omega)]
            · simp only [h2, and_false, false_and, if_false]
              rw [if_pos (by omega)]
          · rw [if_neg h1]
            simp only []
            rw [if_neg (by omega)]
  | plus =>
      have hp : (('+' : Char) == '+') = true := by decide
      have hm : (('+' : Char) == '-') = false := by decide
      simp only [Sign.chars, List.singleton_append, ParseInt, Sign.apply, hp, hm, Bool.true_or,
        if_true, Bool.false_eq_true] at hU ⊢
      rw [hU]
      by_cases h1 : v ≤ 18446744073709551615
      · rw [if_pos h1]
        by_cases h2 : v ≥ 9223372036854775808
        · simp only [h2, and_self, if_true, true_and]
          rw [if_neg (by omega)]
        · simp only [h2, and_false, false_and, if_false]
          rw [if_pos (by omega)]
      · rw [if_neg h1]
        simp only []
        rw [if_neg (by omega)]
  | minus =>
      have hp : (('-' : Char) == '+') = false := by decide
      have hm : (('-' : Char) == '-') = true := by decide
      simp only [Sign.chars, List.singleton_append, ParseInt, Sign.apply, hp, hm, Bool.or_true,
        if_true, Bool.true_eq_false] at hU ⊢
      rw [hU]
      by_cases h1 : v ≤ 18446744073709551615
      · rw [if_pos h1]
        by_cases h2 : v > 9223372036854775808
        · simp only [h2, and_self, if_true, true_and, false_and, if_false]
          rw [if_neg (by omega)]
        · simp only [h2, and_false, false_and, if_false]
          rw [if_pos (by omega)]
      · rw [if_neg h1]
        simp only []
        rw [if_neg (by omega)]

/-- The function `ParseUint` succeeds on non-empty digit strings only. -/
theorem parseUint_ok (cs : List Char) (m : Nat) (h : ParseUint cs = .ok m) :
    ∃ ds : List Nat, ds ≠ [] ∧ (∀ d ∈ ds, d < 10) ∧ cs = ds.map digitChar := by
  cases cs with
  | nil => cases h
  | cons c cs =>
      obtain ⟨ds, hds, hcs⟩ := parseUintLoop_ok (c :: cs) 0 m h
      refine ⟨ds, ?_, hds, hcs⟩
      intro hnil
      subst hnil
      cases hcs

/-- The function `ParseInt` succeeds on signed decimal numerals only. -/
theorem parseInt_ok (cs : List Char) (n : Int) (h : ParseInt cs = .ok n) :
    ∃ (sign : Sign) (ds : List Nat), ds ≠ [] ∧ (∀ d ∈ ds, d < 10) ∧
      cs = sign.chars ++ ds.map digitChar := by
  cases cs with
  | nil => cases h
  | cons c cs =>
      simp only [ParseInt] at h
      split at h
      · cases h
      · rename_i un hun
        by_cases hp : c = '+'
        · subst hp
          have hb : ((('+' : Char) == '+') || (('+' : Char) == '-')) = true := by decide
          rw [if_pos hb] at hun
          obtain ⟨ds, hne, hds, hcs⟩ := parseUint_ok _ _ hun
          exact ⟨Sign.plus, ds, hne, hds, by rw [hcs]; rfl⟩
        · by_cases hm : c = '-'
          · subst hm
            have hb : ((('-' : Char) == '+') || (('-' : Char) == '-')) = true := by decide
            rw [if_pos hb] at hun
            obtain ⟨ds, hne, hds, hcs⟩ := parseUint_ok _ _ hun
            exact ⟨Sign.minus, ds, hne, hds, by rw [hcs]; rfl⟩
          · have hb : ¬ ((c == '+') || (c == '-')) = true := by simp [hp, hm]
            rw [if_neg hb] at hun
            obtain ⟨ds, hne, hds, hcs⟩ := parseUint_ok _ _ hun
            exact ⟨Sign.none, ds, hne, hds, by rw [hcs]; rfl⟩

/-- The percent of a value that is a decimal integer `n`. -/
theorem clampPercent_numeral (v : String) (n : Int) (h : IsDecimalInteger (TrimSpace v) n) :
    clampPercent v =
      if n < 0 then 0 else if n ≤ 100 then n else if n ≤ 9223372036854775807 then 100 else 0 := by
  obtain ⟨sign, ds, hne, hds, hdata, rfl⟩ := h
  have hp := parseInt_numeral sign ds hne hds
  unfold clampPercent Atoi
  rw [hdata, hp]
  generalize sign.apply (numeralValue ds) = n
  by_cases h1 : -9223372036854775808 ≤ n ∧ n ≤ 9223372036854775807
  · rw [if_pos h1]
    simp only
    split_ifs <;> omega
  · rw [if_neg h1]
    simp only
    split_ifs <;> omega

/-- A value that is not a decimal integer gives percent 0. -/
theorem clampPercent_not_numeral (v : String) (h : ¬ ∃ n, IsDecimalInteger (TrimSpace v) n) :
    clampPercent v = 0 := by
  unfold clampPercent Atoi
  split
  · rfl
  · rename_i n hn
    exfalso
    obtain ⟨sign, ds, hne, hds, hcs⟩ := parseInt_ok _ _ hn
    exact h ⟨_, sign, ds, hne, hds, hcs, rfl⟩

/-- Counterexample to C7 as stated: the value `99999999999999999999` is a decimal integer
above 100, yet its percent is 0 and not 100, because `strconv.Atoi` reports a range error
for it. -/
theorem clampPercent_huge_numeral_is_zero :
    IsDecimalInteger (TrimSpace "99999999999999999999") 99999999999999999999 ∧
    (100 : Int) < 99999999999999999999 ∧
    clampPercent "99999999999999999999" = 0 ∧
    clampPercent "99999999999999999999" ≠ 100 :=
  ⟨⟨Sign.none, List.replicate 20 9, by decide, by decide, by decide, by decide⟩,
    by decide, by decide, by decide⟩

/-- C7, amended: for every string that, trimmed, is a decimal integer `n`, the percent is 0
when `n < 0`, `n` when `0 ≤ n ≤ 100`, 100 when `100 < n ≤ 2^63 - 1`, and 0 when
`n > 2^63 - 1`; for every string that, trimmed, is not a decimal integer, it is 0. -/
theorem clampPercent_clamps_int_numerals (v : String) :
    (∀ n : Int, IsDecimalInteger (TrimSpace v) n →
      (n < 0 → clampPercent v = 0) ∧
      (0 ≤ n → n ≤ 100 → clampPercent v = n) ∧
      (100 < n → n ≤ 9223372036854775807 → clampPercent v = 100) ∧
      (9223372036854775807 < n → clampPercent v = 0)) ∧
    ((¬ ∃ n : Int, IsDecimalInteger (TrimSpace v) n) → clampPercent v = 0) := by
  refine ⟨fun n h => ?_, clampPercent_not_numeral v⟩
  rw [clampPercent_numeral v n h]
  refine ⟨fun h1 => ?_, fun h1 h2 => ?_, fun h1 h2 => ?_, fun h1 => ?_⟩ <;> split_ifs <;> omega

/-- Witness of C7, amended: the value `" 250\n"` is the decimal integer 250 and has
percent 100. -/
theorem clampPercent_clamps_int_numerals_witness :
    IsDecimalInteger (TrimSpace " 250\n") 250 ∧ (100 : Int) < 250 ∧
    (250 : Int) ≤ 9223372036854775807 ∧ clampPercent " 250\n" = 100 :=
  have h : IsDecimalInteger (TrimSpace " 250\n") 250 :=
    ⟨Sign.none, [2, 5, 0], by decide, by decide, by decide, by decide⟩
  ⟨h, by decide, by decide,
    ((clampPercent_clamps_int_numerals " 250\n").1 250 h).2.2.1 (by decide) (by decide)⟩

/-! ## Monotonicity of the policy -/

/-- With a percent of at most 0 the first branch is taken. -/
theorem chooseMovies_none {H : Type} (r : Request) (gradual : Bool) (percent : Int)
    (monolith movies : H) (draw : Nat) (h : percent ≤ 0) :
    chooseMovies r gradual percent monolith movies draw = monolith := by
  unfold chooseMovies
  rw [if_pos (Or.inr h)]

/-- C14: with gradual migration enabled, an identity `t` that is not empty after trimming
and percents `p ≤ q`, a request with identity `t` that is sent to the new handler at
percent `p` is sent to the new handler at percent `q` as well, whatever the draws. -/
theorem chooseMovies_monotone_in_percent {H : Type} (r r' : Request) (t : String)
    (p q : Int) (monolith movies : H) (d d' : Nat)
    (hpq : p ≤ q)
    (ht : TrimSpace (r.Query.Get "id") = t) (ht' : TrimSpace (r'.Query.Get "id") = t)
    (hne : t ≠ "")
    (hsel : chooseMovies r true p monolith movies d = movies) :
    chooseMovies r' true q monolith movies d' = movies := by
  by_cases hq100 : 100 ≤ q
  · exact chooseMovies_full r' q monolith movies d' hq100
  · have hq1 : q < 100 := by omega
    by_cases hp0 : p ≤ 0
    · rw [chooseMovies_none r true p monolith movies d hp0] at hsel
      subst hsel
      by_cases hq0 : q ≤ 0
      · exact chooseMovies_none r' true q monolith monolith d' hq0
      · rw [chooseMovies_mid r' q monolith monolith d' (by omega) hq1]
        simp
    · have hp1 : 0 < p := by omega
      rw [chooseMovies_mid r p monolith movies d hp1 (by omega), ht, if_pos hne] at hsel
      rw [chooseMovies_mid r' q monolith movies d' (by omega) hq1, ht', if_pos hne]
      by_cases hb : bucket100 ("id=" ++ t) < p
      · rw [if_pos (by omega)]
      · rw [if_neg hb] at hsel
        subst hsel
        simp

/-- Witness of C14: identity 42, sent to the new handler at percent 50, stays there at
percent 70. -/
theorem chooseMovies_monotone_in_percent_witness :
    (50 : Int) ≤ 70 ∧
    TrimSpace (reqId42.Query.Get "id") = "42" ∧ "42" ≠ "" ∧
    chooseMovies reqId42 true 50 Backend.monolith Backend.movies 3 = Backend.movies ∧
    chooseMovies reqId42 true 70 Backend.monolith Backend.movies 99 = Backend.movies :=
  ⟨by decide, by decide, by decide, chooseMovies_id42_half 3,
    chooseMovies_monotone_in_percent reqId42 reqId42 "42" 50 70 Backend.monolith
      Backend.movies 3 99 (by decide) (by decide) (by decide) (by decide)
      (chooseMovies_id42_half 3)⟩

/-! ## The error handler -/

/-- C13: for every backend target, request and transport error, the error handler that
`newProxy` installs, run on a writer that has sent nothing yet, sends status 502 with
content type `application/json` and the body `{"error":"upstream unavailable"}` (and a
newline); the response is the same for every target, request and error, and the logged
line names the method, the path and the error.  The handler is a total function of the
writer, the request and the error: it has no transport to call again and always returns. -/
theorem newProxy_errorHandler_bad_gateway (target : String) (hdrs : List (String × String))
    (method : String) (r : Request) (err : String) :
    ((newProxy target).ErrorHandler ⟨hdrs, none, ""⟩ method r err).1.wrote =
      some (502, ("Content-Type", "application/json") ::
        hdrs.filter (fun kv => kv.1 != "Content-Type")) ∧
    ((newProxy target).ErrorHandler ⟨hdrs, none, ""⟩ method r err).1.body =
      "\x7b\"error\":\"upstream unavailable\"\x7d\n" ∧
    ((newProxy target).ErrorHandler ⟨hdrs, none, ""⟩ method r err).1.body =
      encodeErrResp ⟨"upstream unavailable"⟩ ∧
    (∀ (target' method' : String) (r' : Request) (err' : String),
      ((newProxy target').ErrorHandler ⟨hdrs, none, ""⟩ method' r' err').1 =
        ((newProxy target).ErrorHandler ⟨hdrs, none, ""⟩ method r err).1) ∧
    ((newProxy target).ErrorHandler ⟨hdrs, none, ""⟩ method r err).2 =
      "upstream error " ++ method ++ " " ++ r.Path ++ " -> " ++ err := by
  refine ⟨rfl, ?_, ?_, fun _ _ _ _ => rfl, rfl⟩
  · show "" ++ encodeErrResp ⟨"upstream unavailable"⟩ = _
    decide
  · show "" ++ encodeErrResp ⟨"upstream unavailable"⟩ = _
    decide

/-! ## The dispatcher -/

/-- A split path has a first piece. -/
theorem splitSlash_eq_cons (l : List Char) : ∃ s rs, splitSlash l = s :: rs := by
  induction l with
  | nil => exact ⟨[], [], rfl⟩
  | cons c cs ih =>
      obtain ⟨s, rs, h⟩ := ih
      by_cases hc : c = '/'
      · exact ⟨[], s :: rs, by simp [splitSlash, h, hc]⟩
      · exact ⟨c :: s, rs, by simp [splitSlash, h, hc]⟩

/-- Splitting after a slash. -/
theorem splitSlash_slash (cs : List Char) : splitSlash ('/' :: cs) = [] :: splitSlash cs := by
  obtain ⟨s, rs, h⟩ := splitSlash_eq_cons cs
  simp [splitSlash, h]

/-- Splitting after a character that is not a slash. -/
theorem splitSlash_cons (c : Char) (cs s : List Char) (rs : List (List Char)) (hc : c ≠ '/')
    (h : splitSlash cs = s :: rs) : splitSlash (c :: cs) = (c :: s) :: rs := by
  simp [splitSlash, h, hc]

/-- Splitting a piece without slashes that is followed by a slash. -/
theorem splitSlash_append (seg rest : List Char) (hseg : '/' ∉ seg) :
    splitSlash (seg ++ '/' :: rest) = seg :: splitSlash rest := by
  induction seg with
  | nil => exact splitSlash_slash rest
  | cons c cs ih =>
      have hc : c ≠ '/' := fun h => hseg (h ▸ List.mem_cons_self _ _)
      have hcs : '/' ∉ cs := fun h => hseg (List.mem_cons_of_mem _ h)
      exact splitSlash_cons c _ _ _ hc (ih hcs)

/-- The first piece of a split list starts the list; it is the whole list when it is the
only piece, and is followed by a slash otherwise. -/
theorem splitSlash_first (l s : List Char) (rs : List (List Char))
    (h : splitSlash l = s :: rs) :
    (rs = [] ∧ l = s) ∨ (rs ≠ [] ∧ ∃ t, l = s ++ '/' :: t) := by
  induction l generalizing s rs with
  | nil =>
      simp only [splitSlash, List.cons.injEq] at h
      exact Or.inl ⟨h.2.symm, h.1⟩
  | cons c cs ih =>
      obtain ⟨s1, rs1, h1⟩ := splitSlash_eq_cons cs
      by_cases hc : c = '/'
      · subst hc
        rw [splitSlash_slash, h1, List.cons.injEq] at h
        obtain ⟨hs, hrs⟩ := h
        subst hs
        subst hrs
        exact Or.inr ⟨by simp, cs, rfl⟩
      · rw [splitSlash_cons c cs s1 rs1 hc h1, List.cons.injEq] at h
        obtain ⟨hs, hrs⟩ := h
        subst hs
        subst hrs
        rcases ih s1 rs1 h1 with ⟨hnil, hl⟩ | ⟨hne, t, hl⟩
        · exact Or.inl ⟨hnil, by rw [hl]⟩
        · exact Or.inr ⟨hne, t, by rw [hl]; rfl⟩

/-- A segment without a percent sign decodes to itself. -/
theorem unescapeLoop_plain (seg : List Char) (h : '%' ∉ seg) : unescapeLoop seg = some seg := by
  induction seg with
  | nil => rfl
  | cons c cs ih =>
      have hc : c ≠ '%' := fun hc => h (hc ▸ List.mem_cons_self _ _)
      have hcs : '%' ∉ cs := fun hcs => h (List.mem_cons_of_mem _ hcs)
      unfold unescapeLoop
      rw [if_neg hc, ih hcs]

/-- A segment without a percent sign is left alone by `pathUnescape`. -/
theorem pathUnescape_plain (seg : List Char) (h : '%' ∉ seg) : pathUnescape seg = seg := by
  simp [pathUnescape, unescapeLoop_plain seg h]

/-- The registered routes that satisfy a predicate, one by one. -/
theorem filter_routes (p : Route → Bool) :
    routes.filter p =
      (if p Route.health then [Route.health] else []) ++
      ((if p Route.users then [Route.users] else []) ++
      ((if p Route.usersTree then [Route.usersTree] else []) ++
      ((if p Route.events then [Route.events] else []) ++
      ((if p Route.eventsTree then [Route.eventsTree] else []) ++
      ((if p Route.movies then [Route.movies] else []) ++
      ((if p Route.moviesTree then [Route.moviesTree] else []) ++
      (if p Route.apiTree then [Route.apiTree] else []))))))) := by
  unfold routes
  simp only [List.filter_cons, List.filter_nil]
  generalize p Route.health = b1
  generalize p Route.users = b2
  generalize p Route.usersTree = b3
  generalize p Route.events = b4
  generalize p Route.eventsTree = b5
  generalize p Route.movies = b6
  generalize p Route.moviesTree = b7
  generalize p Route.apiTree = b8
  cases b1 <;> cases b2 <;> cases b3 <;> cases b4 <;> cases b5 <;> cases b6 <;> cases b7 <;>
    cases b8 <;> rfl

/-- The route of a path whose segments start `api`, `users` and go on. -/
theorem matchRoute_usersTree (path : String) (s : List Char) (rs : List (List Char))
    (h : pathSegments path = "api".data :: "users".data :: s :: rs) :
    matchRoute path = some Route.usersTree := by
  have e1 : patternMatches Route.health.pattern path = false := by
    rw [patternMatches, h]; rfl
  have e2 : patternMatches Route.users.pattern path = false := by
    rw [patternMatches, h]; rfl
  have e3 : patternMatches Route.usersTree.pattern path = true := by
    rw [patternMatches, h]; rfl
  have e4 : patternMatches Route.events.pattern path = false := by
    rw [patternMatches, h]; rfl
  have e5 : patternMatches Route.eventsTree.pattern path = false := by
    rw [patternMatches, h]; rfl
  have e6 : patternMatches Route.movies.pattern path = false := by
    rw [patternMatches, h]; rfl
  have e7 : patternMatches Route.moviesTree.pattern path = false := by
    rw [patternMatches, h]; rfl
  have e8 : patternMatches Route.apiTree.pattern path = true := by
    rw [patternMatches, h]; rfl
  unfold matchRoute
  rw [filter_routes, e1, e2, e3, e4, e5, e6, e7, e8]
  rfl

/-- The route of a path whose segments start `api`, `events` and go on. -/
theorem matchRoute_eventsTree (path : String) (s : List Char) (rs : List (List Char))
    (h : pathSegments path = "api".data :: "events".data :: s :: rs) :
    matchRoute path = some Route.eventsTree := by
  have e1 : patternMatches Route.health.pattern path = false := by
    rw [patternMatches, h]; rfl
  have e2 : patternMatches Route.users.pattern path = false := by
    rw [patternMatches, h]; rfl
  have e3 : patternMatches Route.usersTree.pattern path = false := by
    rw [patternMatches, h]; rfl
  have e4 : patternMatches Route.events.pattern path = false := by
    rw [patternMatches, h]; rfl
  have e5 : patternMatches Route.eventsTree.pattern path = true := by
    rw [patternMatches, h]; rfl
  have e6 : patternMatches Route.movies.pattern path = false := by
    rw [patternMatches, h]; rfl
  have e7 : patternMatches Route.moviesTree.pattern path = false := by
    rw [patternMatches, h]; rfl
  have e8 : patternMatches Route.apiTree.pattern path = true := by
    rw [patternMatches, h]; rfl
  unfold matchRoute
  rw [filter_routes, e1, e2, e3, e4, e5, e6, e7, e8]
  rfl

/-- The route of a path whose segments start `api` and go on with a segment that is the
name of no family. -/
theorem matchRoute_apiTree (path : String) (s : List Char) (rs : List (List Char))
    (h : pathSegments path = "api".data :: s :: rs)
    (hu : ("users".data == pathUnescape s) = false)
    (he : ("events".data == pathUnescape s) = false)
    (hm : ("movies".data == pathUnescape s) = false) :
    matchRoute path = some Route.apiTree := by
  have e1 : patternMatches Route.health.pattern path = false := by
    rw [patternMatches, h]; rfl
  have e2 : patternMatches Route.users.pattern path = false := by
    rw [patternMatches, h]
    show (("users".data == pathUnescape s) && segmentsMatch [] rs) = false
    rw [hu]; rfl
  have e3 : patternMatches Route.usersTree.pattern path = false := by
    rw [patternMatches, h]
    show (("users".data == pathUnescape s) && segmentsMatch [[]] rs) = false
    rw [hu]; rfl
  have e4 : patternMatches Route.events.pattern path = false := by
    rw [patternMatches, h]
    show (("events".data == pathUnescape s) && segmentsMatch [] rs) = false
    rw [he]; rfl
  have e5 : patternMatches Route.eventsTree.pattern path = false := by
    rw [patternMatches, h]
    show (("events".data == pathUnescape s) && segmentsMatch [[]] rs) = false
    rw [he]; rfl
  have e6 : patternMatches Route.movies.pattern path = false := by
    rw [patternMatches, h]
    show (("movies".data == pathUnescape s) && segmentsMatch [] rs) = false
    rw [hm]; rfl
  have e7 : patternMatches Route.moviesTree.pattern path = false := by
    rw [patternMatches, h]
    show (("movies".data == pathUnescape s) && segmentsMatch [[]] rs) = false
    rw [hm]; rfl
  have e8 : patternMatches Route.apiTree.pattern path = true := by
    rw [patternMatches, h]; rfl
  unfold matchRoute
  rw [filter_routes, e1, e2, e3, e4, e5, e6, e7, e8]
  rfl

/-- On a canonical escaped path that is not redirected to the path with a slash appended,
the mux runs the handler of the matched route. -/
theorem serveMux_of_matchRoute (gradual : Bool) (percent : Int) (escapedPath : String)
    (r : Request) (draw : Nat) (route : Route) (hclean : cleanPath escapedPath = escapedPath)
    (hslash : ¬ (exactMatch (matchRoute escapedPath) escapedPath = false ∧
      endsInSlash escapedPath = false ∧
      exactMatch (matchRoute (escapedPath ++ "/")) (escapedPath ++ "/") = true))
    (hm : matchRoute escapedPath = some route) :
    serveMux gradual percent escapedPath r draw = route.handler gradual percent r draw := by
  unfold serveMux
  simp only [hclean]
  rw [if_neg hslash, if_neg (fun h => h rfl), hm]

/-- A pattern that ends in a slash is no exact match of a path with more slashes than the
pattern has segments. -/
theorem exactMatch_tree_false (route : Route) (path : String)
    (hr : endsInSlash route.pattern = true)
    (hc : (pathSegments route.pattern).length < path.data.count '/') :
    exactMatch (some route) path = false := by
  unfold exactMatch
  simp only [hr, if_true]
  have hne : ((pathSegments route.pattern).length == path.data.count '/') = false := by
    rw [beq_eq_false_iff_ne]
    omega
  rw [hne, Bool.and_false]

/-- A string that has a prefix is the prefix followed by a rest. -/
theorem eq_append_of_HasPrefix (s pre : String) (h : HasPrefix s pre = true) :
    ∃ rest : List Char, s = ⟨pre.data ++ rest⟩ := by
  unfold HasPrefix at h
  obtain ⟨rest, hrest⟩ := List.isPrefixOf_iff_prefix.mp h
  exact ⟨rest, String.ext hrest.symm⟩

/-- Appending a slash to a string given by its characters. -/
theorem mk_append_slash (pre rest : List Char) :
    (⟨pre ++ rest⟩ : String) ++ "/" = ⟨pre ++ (rest ++ ['/'])⟩ := by
  apply String.ext
  simp [String.data_append]

/-- The segments of an escaped path under `/api/users/`. -/
theorem pathSegments_users (rest s : List Char) (rs : List (List Char))
    (h : splitSlash rest = s :: rs) :
    pathSegments ⟨"/api/users/".data ++ rest⟩ = "api".data :: "users".data :: s :: rs := by
  show (splitSlash ('/' :: ("api".data ++ '/' :: ("users".data ++ '/' :: rest)))).tail = _
  rw [splitSlash_slash, splitSlash_append _ _ (by decide), splitSlash_append _ _ (by decide), h]
  rfl

/-- The segments of an escaped path under `/api/events/`. -/
theorem pathSegments_events (rest s : List Char) (rs : List (List Char))
    (h : splitSlash rest = s :: rs) :
    pathSegments ⟨"/api/events/".data ++ rest⟩ = "api".data :: "events".data :: s :: rs := by
  show (splitSlash ('/' :: ("api".data ++ '/' :: ("events".data ++ '/' :: rest)))).tail = _
  rw [splitSlash_slash, splitSlash_append _ _ (by decide), splitSlash_append _ _ (by decide), h]
  rfl

/-- The segments of an escaped path under `/api/`. -/
theorem pathSegments_api (rest s : List Char) (rs : List (List Char))
    (h : splitSlash rest = s :: rs) :
    pathSegments ⟨"/api/".data ++ rest⟩ = "api".data :: s :: rs := by
  show (splitSlash ('/' :: ("api".data ++ '/' :: rest))).tail = _
  rw [splitSlash_slash, splitSlash_append _ _ (by decide), h]
  rfl

/-- A request whose escaped path is under `/api/users/` runs the users handler. -/
theorem serveMux_under_users (gradual : Bool) (percent : Int) (rest : List Char)
    (r : Request) (draw : Nat)
    (hclean : cleanPath ⟨"/api/users/".data ++ rest⟩ = ⟨"/api/users/".data ++ rest⟩) :
    serveMux gradual percent ⟨"/api/users/".data ++ rest⟩ r draw =
      Outcome.proxied Backend.monolith := by
  obtain ⟨s, rs, h⟩ := splitSlash_eq_cons rest
  obtain ⟨s2, rs2, h2⟩ := splitSlash_eq_cons (rest ++ ['/'])
  have hm := matchRoute_usersTree _ s rs (pathSegments_users rest s rs h)
  have hm2 := matchRoute_usersTree _ s2 rs2 (pathSegments_users (rest ++ ['/']) s2 rs2 h2)
  have hcount : (pathSegments Route.usersTree.pattern).length <
      (⟨"/api/users/".data ++ (rest ++ ['/'])⟩ : String).data.count '/' := by
    have h3 : (pathSegments Route.usersTree.pattern).length = 3 := by decide
    have h4 : ("/api/users/".data).count '/' = 3 := by decide
    rw [h3]
    simp only [List.count_append, h4, List.count_singleton_self]
    omega
  have hslash : exactMatch (matchRoute ((⟨"/api/users/".data ++ rest⟩ : String) ++ "/"))
      ((⟨"/api/users/".data ++ rest⟩ : String) ++ "/") = false := by
    rw [mk_append_slash, hm2]
    exact exactMatch_tree_false _ _ (by decide) hcount
  rw [serveMux_of_matchRoute gradual percent _ r draw Route.usersTree hclean
    (fun hh => by rw [hslash] at hh; exact Bool.false_ne_true hh.2.2) hm]
  rfl

/-- A request whose escaped path is under `/api/events/` runs the events handler. -/
theorem serveMux_under_events (gradual : Bool) (percent : Int) (rest : List Char)
    (r : Request) (draw : Nat)
    (hclean : cleanPath ⟨"/api/events/".data ++ rest⟩ = ⟨"/api/events/".data ++ rest⟩) :
    serveMux gradual percent ⟨"/api/events/".data ++ rest⟩ r draw =
      Outcome.proxied Backend.events := by
  obtain ⟨s, rs, h⟩ := splitSlash_eq_cons rest
  obtain ⟨s2, rs2, h2⟩ := splitSlash_eq_cons (rest ++ ['/'])
  have hm := matchRoute_eventsTree _ s rs (pathSegments_events rest s rs h)
  have hm2 := matchRoute_eventsTree _ s2 rs2 (pathSegments_events (rest ++ ['/']) s2 rs2 h2)
  have hcount : (pathSegments Route.eventsTree.pattern).length <
      (⟨"/api/events/".data ++ (rest ++ ['/'])⟩ : String).data.count '/' := by
    have h3 : (pathSegments Route.eventsTree.pattern).length = 3 := by decide
    have h4 : ("/api/events/".data).count '/' = 3 := by decide
    rw [h3]
    simp only [List.count_append, h4, List.count_singleton_self]
    omega
  have hslash : exactMatch (matchRoute ((⟨"/api/events/".data ++ rest⟩ : String) ++ "/"))
      ((⟨"/api/events/".data ++ rest⟩ : String) ++ "/") = false := by
    rw [mk_append_slash, hm2]
    exact exactMatch_tree_false _ _ (by decide) hcount
  rw [serveMux_of_matchRoute gradual percent _ r draw Route.eventsTree hclean
    (fun hh => by rw [hslash] at hh; exact Bool.false_ne_true hh.2.2) hm]
  rfl

/-- Splitting a list that a slash is appended to: one more, empty piece. -/
theorem splitSlash_append_slash (l s : List Char) (rs : List (List Char))
    (h : splitSlash l = s :: rs) : splitSlash (l ++ ['/']) = s :: (rs ++ [[]]) := by
  induction l generalizing s rs with
  | nil =>
      simp only [splitSlash, List.cons.injEq] at h
      obtain ⟨hs, hrs⟩ := h
      subst hs
      subst hrs
      rfl
  | cons c cs ih =>
      obtain ⟨s1, rs1, h1⟩ := splitSlash_eq_cons cs
      have ih1 := ih s1 rs1 h1
      by_cases hc : c = '/'
      · subst hc
        rw [splitSlash_slash, h1, List.cons.injEq] at h
        obtain ⟨hs, hrs⟩ := h
        subst hs
        subst hrs
        rw [List.cons_append, splitSlash_slash, ih1]
        rfl
      · rw [splitSlash_cons c cs s1 rs1 hc h1, List.cons.injEq] at h
        obtain ⟨hs, hrs⟩ := h
        subst hs
        subst hrs
        rw [List.cons_append, splitSlash_cons c _ s1 (rs1 ++ [[]]) hc ih1]

/-- The first segment of a rest without percent signs is the name of a family only if the
rest is that name or starts with the name and a slash. -/
theorem segment_not_family (name : String) (rest s : List Char) (rs : List (List Char))
    (hs : splitSlash rest = s :: rs) (hpct : '%' ∉ rest) (h1 : rest ≠ name.data)
    (h2 : ∀ t : List Char, rest ≠ name.data ++ '/' :: t) :
    (name.data == pathUnescape s) = false := by
  rw [beq_eq_false_iff_ne]
  intro heq
  rcases splitSlash_first rest s rs hs with ⟨_, hl⟩ | ⟨_, t, hl⟩
  · have hps : '%' ∉ s := by rw [← hl]; exact hpct
    rw [pathUnescape_plain s hps] at heq
    exact h1 (by rw [hl, heq])
  · have hps : '%' ∉ s := by
      intro hmem
      exact hpct (by rw [hl]; exact List.mem_append_left _ hmem)
    rw [pathUnescape_plain s hps] at heq
    exact h2 t (by rw [hl, heq])

/-- A request whose escaped path has no percent sign, is under `/api/` and is no specific
binding runs the default handler. -/
theorem serveMux_under_api (gradual : Bool) (percent : Int) (rest : List Char)
    (r : Request) (draw : Nat)
    (hclean : cleanPath ⟨"/api/".data ++ rest⟩ = ⟨"/api/".data ++ rest⟩)
    (hpct : '%' ∉ rest)
    (hspec : isSpecificBinding ⟨"/api/".data ++ rest⟩ = false) :
    serveMux gradual percent ⟨"/api/".data ++ rest⟩ r draw =
      Outcome.proxied Backend.monolith := by
  simp only [isSpecificBinding, Bool.or_eq_false_iff] at hspec
  obtain ⟨⟨⟨⟨⟨⟨_, h2⟩, h3⟩, h4⟩, h5⟩, h6⟩, h7⟩ := hspec
  obtain ⟨s, rs, h⟩ := splitSlash_eq_cons rest
  have exact_ne : ∀ name full : String, full.data = "/api/".data ++ name.data →
      ((⟨"/api/".data ++ rest⟩ : String) == full) = false → rest ≠ name.data := by
    intro name full hfull hne heq
    rw [beq_eq_false_iff_ne] at hne
    exact hne (String.ext (by rw [hfull, heq]))
  have tree_ne : ∀ name full : String, full.data = "/api/".data ++ (name.data ++ ['/']) →
      HasPrefix ⟨"/api/".data ++ rest⟩ full = false →
      ∀ t : List Char, rest ≠ name.data ++ '/' :: t := by
    intro name full hfull hne t heq
    have hp : HasPrefix ⟨"/api/".data ++ rest⟩ full = true := by
      unfold HasPrefix
      rw [List.isPrefixOf_iff_prefix, hfull, heq]
      exact ⟨t, by simp⟩
    rw [hp] at hne
    exact Bool.noConfusion hne
  have hu := segment_not_family "users" rest s rs h hpct
    (exact_ne "users" "/api/users" rfl h2) (tree_ne "users" "/api/users/" rfl h3)
  have he := segment_not_family "events" rest s rs h hpct
    (exact_ne "events" "/api/events" rfl h4) (tree_ne "events" "/api/events/" rfl h5)
  have hm := segment_not_family "movies" rest s rs h hpct
    (exact_ne "movies" "/api/movies" rfl h6) (tree_ne "movies" "/api/movies/" rfl h7)
  have hr := matchRoute_apiTree _ s rs (pathSegments_api rest s rs h) hu he hm
  have hr2 := matchRoute_apiTree _ s (rs ++ [[]])
    (pathSegments_api (rest ++ ['/']) s (rs ++ [[]]) (splitSlash_append_slash rest s rs h))
    hu he hm
  have hcount : (pathSegments Route.apiTree.pattern).length <
      (⟨"/api/".data ++ (rest ++ ['/'])⟩ : String).data.count '/' := by
    have h8 : (pathSegments Route.apiTree.pattern).length = 2 := by decide
    have h9 : ("/api/".data).count '/' = 2 := by decide
    rw [h8]
    simp only [List.count_append, h9, List.count_singleton_self]
    omega
  have hslash : exactMatch (matchRoute ((⟨"/api/".data ++ rest⟩ : String) ++ "/"))
      ((⟨"/api/".data ++ rest⟩ : String) ++ "/") = false := by
    rw [mk_append_slash, hr2]
    exact exactMatch_tree_false _ _ (by decide) hcount
  rw [serveMux_of_matchRoute gradual percent _ r draw Route.apiTree hclean
    (fun hh => by rw [hslash] at hh; exact Bool.false_ne_true hh.2.2) hr]
  rfl

/-- The request `GET /api/movies/health`, sent with no escaped character, is forwarded to
the movies backend, whatever the gradual flag, the percent, the query and the draw. -/
theorem serveMux_movies_health_unescaped (gradual : Bool) (percent : Int) (q : Values)
    (draw : Nat) :
    serveMux gradual percent "/api/movies/health" ⟨"/api/movies/health", q⟩ draw =
      Outcome.proxied Backend.movies := by
  have h1 : cleanPath "/api/movies/health" = "/api/movies/health" := by decide
  have h2 : matchRoute "/api/movies/health" = some Route.moviesTree := by decide
  have h3 : ¬ (exactMatch (matchRoute "/api/movies/health") "/api/movies/health" = false ∧
      endsInSlash "/api/movies/health" = false ∧
      exactMatch (matchRoute ("/api/movies/health" ++ "/")) ("/api/movies/health" ++ "/")
        = true) := by decide
  rw [serveMux_of_matchRoute gradual percent _ _ draw Route.moviesTree h1 h3 h2]
  simp [Route.handler, proxyHandler]

/-- C10, the code at the failing input: the request `GET /api/movies%2Fhealth` has the
decoded path `/api/movies/health`, the one the health exemption tests for, yet the mux
matches its escaped path to the pattern `/api/`, and the request is forwarded to the
legacy backend whatever the gradual flag, the percent, the query and the draw. -/
theorem serveMux_escaped_movies_health_legacy (gradual : Bool) (percent : Int) (q : Values)
    (draw : Nat) :
    pathUnescape "/api/movies%2Fhealth".data = "/api/movies/health".data ∧
    serveMux gradual percent "/api/movies%2Fhealth" ⟨"/api/movies/health", q⟩ draw =
      Outcome.proxied Backend.monolith ∧
    serveMux gradual percent "/api/movies%2Fhealth" ⟨"/api/movies/health", q⟩ draw ≠
      Outcome.proxied Backend.movies := by
  have h0 : pathUnescape "/api/movies%2Fhealth".data = "/api/movies/health".data := by decide
  have h1 : cleanPath "/api/movies%2Fhealth" = "/api/movies%2Fhealth" := by decide
  have h2 : matchRoute "/api/movies%2Fhealth" = some Route.apiTree := by decide
  have h3 : ¬ (exactMatch (matchRoute "/api/movies%2Fhealth") "/api/movies%2Fhealth" = false ∧
      endsInSlash "/api/movies%2Fhealth" = false ∧
      exactMatch (matchRoute ("/api/movies%2Fhealth" ++ "/")) ("/api/movies%2Fhealth" ++ "/")
        = true) := by decide
  have h : serveMux gradual percent "/api/movies%2Fhealth" ⟨"/api/movies/health", q⟩ draw =
      Outcome.proxied Backend.monolith := by
    rw [serveMux_of_matchRoute gradual percent _ _ draw Route.apiTree h1 h3 h2]
    rfl
  rw [h]
  exact ⟨h0, rfl, by decide⟩

/-- An escaped letter inside a family name: `GET /api/%65vents/7` (decoded path
`/api/events/7`) starts with `/api/` as sent and is textually none of the specific
bindings, and it is forwarded to the events backend. -/
theorem serveMux_escaped_letter :
    pathUnescape "/api/%65vents/7".data = "/api/events/7".data ∧
    HasPrefix "/api/%65vents/7" "/api/" = true ∧
    isSpecificBinding "/api/%65vents/7" = false ∧
    serveMux true 50 "/api/%65vents/7" ⟨"/api/events/7", []⟩ 0 =
      Outcome.proxied Backend.events := by
  decide

/-- Counterexample to C11 as stated: the path `/api/users/../movies`, sent as it is,
starts with `/api/users/`, yet the request is not forwarded to the legacy backend: the mux
answers it with a redirect to `/api/movies`; likewise `/api/events//7` is redirected.  And
the request `GET /api/events%2F7`, whose decoded path `/api/events/7` starts with
`/api/events/`, is forwarded to the legacy backend and not to the events backend. -/
theorem serveMux_users_dotdot_redirected :
    HasPrefix "/api/users/../movies" "/api/users/" = true ∧
    serveMux true 50 "/api/users/../movies" ⟨"/api/users/../movies", []⟩ 0 =
      Outcome.redirect "/api/movies" ∧
    serveMux true 50 "/api/users/../movies" ⟨"/api/users/../movies", []⟩ 0 ≠
      Outcome.proxied Backend.monolith ∧
    HasPrefix "/api/events//7" "/api/events/" = true ∧
    serveMux true 50 "/api/events//7" ⟨"/api/events//7", []⟩ 0 =
      Outcome.redirect "/api/events/7" ∧
    pathUnescape "/api/events%2F7".data = "/api/events/7".data ∧
    HasPrefix "/api/events/7" "/api/events/" = true ∧
    serveMux true 50 "/api/events%2F7" ⟨"/api/events/7", []⟩ 0 =
      Outcome.proxied Backend.monolith := by
  decide

/-- C11, amended: whatever the gradual flag, the percent, the rest of the request and the
draw, a request whose path as sent (the escaped path) is in canonical form and is
`/api/users` or starts with `/api/users/` is forwarded to the legacy backend, and one
whose path as sent is in canonical form and is `/api/events` or starts with
`/api/events/` is forwarded to the events backend. -/
theorem serveMux_static_bindings (gradual : Bool) (percent : Int) (escapedPath : String)
    (r : Request) (draw : Nat) (hclean : cleanPath escapedPath = escapedPath) :
    ((escapedPath = "/api/users" ∨ HasPrefix escapedPath "/api/users/" = true) →
      serveMux gradual percent escapedPath r draw = Outcome.proxied Backend.monolith) ∧
    ((escapedPath = "/api/events" ∨ HasPrefix escapedPath "/api/events/" = true) →
      serveMux gradual percent escapedPath r draw = Outcome.proxied Backend.events) := by
  constructor
  · rintro (h | h)
    · subst h
      have h2 : matchRoute "/api/users" = some Route.users := by decide
      have h3 : ¬ (exactMatch (matchRoute "/api/users") "/api/users" = false ∧
          endsInSlash "/api/users" = false ∧
          exactMatch (matchRoute ("/api/users" ++ "/")) ("/api/users" ++ "/") = true) := by
        decide
      rw [serveMux_of_matchRoute gradual percent _ r draw Route.users hclean h3 h2]
      rfl
    · obtain ⟨rest, rfl⟩ := eq_append_of_HasPrefix escapedPath "/api/users/" h
      exact serveMux_under_users gradual percent rest r draw hclean
  · rintro (h | h)
    · subst h
      have h2 : matchRoute "/api/events" = some Route.events := by decide
      have h3 : ¬ (exactMatch (matchRoute "/api/events") "/api/events" = false ∧
          endsInSlash "/api/events" = false ∧
          exactMatch (matchRoute ("/api/events" ++ "/")) ("/api/events" ++ "/") = true) := by
        decide
      rw [serveMux_of_matchRoute gradual percent _ r draw Route.events hclean h3 h2]
      rfl
    · obtain ⟨rest, rfl⟩ := eq_append_of_HasPrefix escapedPath "/api/events/" h
      exact serveMux_under_events gradual percent rest r draw hclean

/-- Witness of C11, amended: the request `GET /api/users/7?id=42`. -/
theorem serveMux_static_bindings_witness :
    cleanPath "/api/users/7" = "/api/users/7" ∧ HasPrefix "/api/users/7" "/api/users/" = true ∧
    serveMux true 50 "/api/users/7" ⟨"/api/users/7", [("id", ["42"])]⟩ 3 =
      Outcome.proxied Backend.monolith :=
  ⟨by decide, by decide,
    (serveMux_static_bindings true 50 "/api/users/7" ⟨"/api/users/7", [("id", ["42"])]⟩ 3
      (by decide)).1 (Or.inr (by decide))⟩

/-- Counterexample to C12 as stated: the paths `/foo` and `/` match none of the specific
bindings, yet they are not forwarded to the legacy backend: no pattern matches them and
the mux answers 404; the path `/api` is answered with a redirect.  And the request
`GET /api%2Fpayments`, whose decoded path `/api/payments` matches none of the specific
bindings, is answered 404 as well. -/
theorem serveMux_unmatched_not_found :
    isSpecificBinding "/foo" = false ∧
    serveMux true 50 "/foo" ⟨"/foo", []⟩ 0 = Outcome.notFound ∧
    serveMux true 50 "/foo" ⟨"/foo", []⟩ 0 ≠ Outcome.proxied Backend.monolith ∧
    isSpecificBinding "/" = false ∧
    serveMux true 50 "/" ⟨"/", []⟩ 0 = Outcome.notFound ∧
    isSpecificBinding "/api" = false ∧
    serveMux true 50 "/api" ⟨"/api", []⟩ 0 = Outcome.redirect "/api/" ∧
    pathUnescape "/api%2Fpayments".data = "/api/payments".data ∧
    isSpecificBinding "/api/payments" = false ∧
    serveMux true 50 "/api%2Fpayments" ⟨"/api/payments", []⟩ 0 = Outcome.notFound := by
  decide

/-- C12, amended: whatever the gradual flag, the percent, the rest of the request and the
draw, a request whose path as sent (the escaped path) has no percent sign, is in canonical
form, starts with `/api/` and matches none of the specific bindings (the local `/health`
endpoint and the users, events and movies families) is forwarded to the legacy backend. -/
theorem serveMux_default_legacy (gradual : Bool) (percent : Int) (escapedPath : String)
    (r : Request) (draw : Nat) (hclean : cleanPath escapedPath = escapedPath)
    (hplain : '%' ∉ escapedPath.data)
    (hapi : HasPrefix escapedPath "/api/" = true)
    (hspec : isSpecificBinding escapedPath = false) :
    serveMux gradual percent escapedPath r draw = Outcome.proxied Backend.monolith := by
  obtain ⟨rest, rfl⟩ := eq_append_of_HasPrefix escapedPath "/api/" hapi
  have hpct : '%' ∉ rest := fun h => hplain (List.mem_append_right _ h)
  exact serveMux_under_api gradual percent rest r draw hclean hpct hspec

/-- Witness of C12, amended: the request `GET /api/payments`. -/
theorem serveMux_default_legacy_witness :
    cleanPath "/api/payments" = "/api/payments" ∧ '%' ∉ "/api/payments".data ∧
    HasPrefix "/api/payments" "/api/" = true ∧ isSpecificBinding "/api/payments" = false ∧
    serveMux true 50 "/api/payments" ⟨"/api/payments", []⟩ 0 =
      Outcome.proxied Backend.monolith :=
  ⟨by decide, by decide, by decide, by decide,
    serveMux_default_legacy true 50 "/api/payments" ⟨"/api/payments", []⟩ 0 (by decide)
      (by decide) (by decide) (by decide)⟩

end CinemaAbyss
